import Mathlib

/-!
# Brewlingo bean-field core: shallow embedding and verification

This file embeds the algorithmic core of the `brewlingo` bean-field renderer
(`src/js/particles.js` together with the shared bean model it imports) in
Lean 4 and proves / refutes the frozen specification claims about it.

The embedding follows the JavaScript source line by line:

* the particle-field tick (`animate`, position integration + toroidal wrap)
  is `tickBean`, over exact rationals;
* hero selection (`transitionToSingleBean`, the closest-to-screen-center
  scan) is `selectHero`;
* the Euler-angle normalisation helper (`normalizeAngle`) is
  `normalizeAngle`, defined by the same two while loops via well-founded
  recursion;
* the mode-toggle guard (`toggleSingleBeanMode`) is `toggleSingleBeanMode`
  over an explicit transition state;
* the two parametric mesh generators (`createBeanGeometryClassic`,
  `createBeanGeometrySuperellipse`) are `classicVertices`,
  `superellipseVertices` and `gridIndices`;
* the crease block of `BeanShaderFragmentShader` is `creaseDist` /
  `creaseLine`, and the CMYK halo pass (`CMYKShaderFragmentShader`) is
  `cmykEdges` / `cmykFringes` / `cmykFrag`.

Machine floats are modelled as exact rationals where the source only adds,
compares and assigns, and as real numbers where the source uses
transcendental library functions.
-/

namespace Brewlingo

/-! ## Particle field: per-bean simulation tick

From `animate` in `particles.js`: for every bean with `scale.x > 0` the
position is advanced by the per-bean velocity, the rotation by the angular
velocity, and then each of x and y is wrapped against `spread + 2` by two
sequential `if` statements. Hidden beans (`scale.x <= 0`) are skipped. -/

/-- One bean instance of the particle field: position, Euler rotation,
uniform scale, and the five velocity components stored in `userData`. -/
structure FieldBean where
  x : ℚ
  y : ℚ
  z : ℚ
  rx : ℚ
  ry : ℚ
  rz : ℚ
  scale : ℚ
  vx : ℚ
  vy : ℚ
  vrx : ℚ
  vry : ℚ
  vrz : ℚ
deriving DecidableEq, Repr

/-- The two sequential wrap `if`s of `animate`, for one axis:
`if (pos > bound) pos = -bound; if (pos < -bound) pos = bound;`. -/
def wrapCoord (bound pos : ℚ) : ℚ :=
  let pos2 := if pos > bound then -bound else pos
  if pos2 < -bound then bound else pos2

/-- One simulation tick for a single bean, translated from the body of the
`beans.forEach` loop in `animate`: integrate position and rotation, then
wrap x against `boundX = spreadX + 2` and y against `boundY = spreadY + 2`
with the two sequential `if`s per axis (`wrapCoord`).  Beans with
`scale ≤ 0` are skipped. -/
def tickBean (spreadX spreadY : ℚ) (b : FieldBean) : FieldBean :=
  if 0 < b.scale then
    let boundX := spreadX + 2
    let boundY := spreadY + 2
    { b with
      x := wrapCoord boundX (b.x + b.vx)
      y := wrapCoord boundY (b.y + b.vy)
      rx := b.rx + b.vrx
      ry := b.ry + b.vry
      rz := b.rz + b.vrz }
  else
    b

/-- If the integrated coordinate overshoots the bound, `wrapCoord` returns
exactly the opposite signed bound. -/
theorem wrapCoord_of_gt {bound pos : ℚ} (h : bound < pos) :
    wrapCoord bound pos = -bound := by
  simp only [wrapCoord]
  rw [if_pos (show pos > bound from h), if_neg (lt_irrefl _)]

/-- If the integrated coordinate undershoots the negative bound, `wrapCoord`
returns exactly the positive bound (for a nonnegative bound). -/
theorem wrapCoord_of_lt {bound pos : ℚ} (hb : 0 ≤ bound) (h : pos < -bound) :
    wrapCoord bound pos = bound := by
  simp only [wrapCoord]
  rw [if_neg (show ¬pos > bound by linarith), if_pos h]

/-- After wrapping, the coordinate lies inside `[-bound, bound]`
(for a nonnegative bound). -/
theorem abs_wrapCoord_le {bound pos : ℚ} (hb : 0 ≤ bound) :
    |wrapCoord bound pos| ≤ bound := by
  simp only [wrapCoord]
  split_ifs <;> rw [abs_le] <;> constructor <;> linarith

/-- The bean of the spec's end-to-end wrap scenario: at `x = 6.9` with
`vx = 1`, visible, all other components irrelevant to the x axis. -/
def wrapDemoBean : FieldBean :=
  { x := 69/10, y := 0, z := 0, rx := 0, ry := 0, rz := 0, scale := 1,
    vx := 1, vy := 0, vrx := 0, vry := 0, vrz := 0 }

/-- The bean of the spec's `spreadX = 10` wrap scenario: a tick drives it
from `x = 11.9` to `x = 12.1`, past the bound `12`. -/
def wrapDemoBean10 : FieldBean :=
  { x := 119/10, y := 0, z := 0, rx := 0, ry := 0, rz := 0, scale := 1,
    vx := 2/10, vy := 0, vrx := 0, vry := 0, vrz := 0 }

end Brewlingo

namespace Brewlingo

/-- C1 counterexample: the wrap does NOT preserve the overshoot.  With
`spreadX = 5` (bound 7) the bean at `x = 6.9` with `vx = 1` is driven to
`7.9` and lands at exactly `-7`, not at the mirrored overshoot `-7.9`;
with `spreadX = 10` (bound 12) the bean driven to `12.1` lands at exactly
`-12`, not `-12.1`. -/
theorem wrap_discards_overshoot_counterexample :
    (tickBean 5 5 wrapDemoBean).x = -7 ∧ (tickBean 5 5 wrapDemoBean).x ≠ -79/10 ∧
    (tickBean 10 8 wrapDemoBean10).x = -12 ∧ (tickBean 10 8 wrapDemoBean10).x ≠ -121/10 := by
  refine ⟨?_, ?_, ?_, ?_⟩ <;>
    norm_num [tickBean, wrapCoord, wrapDemoBean, wrapDemoBean10]

/-- C1 (amended): when a tick drives a visible bean's x coordinate past the
wrap bound `spreadX + 2`, the bean reappears at exactly the opposite signed
bound `-(spreadX + 2)`; the overshoot amount is discarded, not preserved. -/
theorem wrap_to_opposite_bound (spreadX spreadY : ℚ) (b : FieldBean)
    (hvis : 0 < b.scale) (hover : spreadX + 2 < b.x + b.vx) :
    (tickBean spreadX spreadY b).x = -(spreadX + 2) := by
  unfold tickBean
  rw [if_pos hvis]
  exact wrapCoord_of_gt hover

/-- C1 amended-claim witness: the spec's own scenario, `spreadX = 5`,
`x = 6.9`, `vx = 1`, evaluated concretely. -/
theorem wrap_to_opposite_bound_witness :
    (0 : ℚ) < wrapDemoBean.scale ∧ (5 : ℚ) + 2 < wrapDemoBean.x + wrapDemoBean.vx ∧
    (tickBean 5 5 wrapDemoBean).x = -(5 + 2) :=
  ⟨by norm_num [wrapDemoBean], by norm_num [wrapDemoBean],
    wrap_to_opposite_bound 5 5 wrapDemoBean (by norm_num [wrapDemoBean])
      (by norm_num [wrapDemoBean])⟩

/-- C2: after a tick, every visible bean satisfies `|x| ≤ spreadX + 2` and
`|y| ≤ spreadY + 2`, for arbitrary pre-tick position and velocity; and a
coordinate exceeding the bound on either side is set to exactly the
opposite signed bound (a true wrap, neither clamped nor reflected). -/
theorem tick_wrap_invariant (spreadX spreadY : ℚ) (b : FieldBean)
    (hsx : 0 ≤ spreadX) (hsy : 0 ≤ spreadY) (hvis : 0 < b.scale) :
    |(tickBean spreadX spreadY b).x| ≤ spreadX + 2 ∧
    |(tickBean spreadX spreadY b).y| ≤ spreadY + 2 ∧
    (spreadX + 2 < b.x + b.vx → (tickBean spreadX spreadY b).x = -(spreadX + 2)) ∧
    (b.x + b.vx < -(spreadX + 2) → (tickBean spreadX spreadY b).x = spreadX + 2) ∧
    (spreadY + 2 < b.y + b.vy → (tickBean spreadX spreadY b).y = -(spreadY + 2)) ∧
    (b.y + b.vy < -(spreadY + 2) → (tickBean spreadX spreadY b).y = spreadY + 2) := by
  unfold tickBean
  rw [if_pos hvis]
  exact ⟨abs_wrapCoord_le (by linarith), abs_wrapCoord_le (by linarith),
    fun h => wrapCoord_of_gt h, fun h => wrapCoord_of_lt (by linarith) h,
    fun h => wrapCoord_of_gt h, fun h => wrapCoord_of_lt (by linarith) h⟩

/-- C2 witness: the invariant evaluated at the spec's `spreadX = 10`
scenario bean. -/
theorem tick_wrap_invariant_witness :
    (0 : ℚ) ≤ 10 ∧ (0 : ℚ) ≤ 8 ∧ (0 : ℚ) < wrapDemoBean10.scale ∧
    |(tickBean 10 8 wrapDemoBean10).x| ≤ 10 + 2 :=
  ⟨by norm_num, by norm_num, by norm_num [wrapDemoBean10],
    (tick_wrap_invariant 10 8 wrapDemoBean10 (by norm_num) (by norm_num)
      (by norm_num [wrapDemoBean10])).1⟩

/-! ## Hero selection (`transitionToSingleBean`)

The source projects every bean's position to normalized device coordinates
(`bean.position.clone().project(camera)`), computes the Euclidean distance
to the screen center `(0,0)`, skips hidden beans (`scale.x <= 0`), and keeps
the strictly closest bean seen so far, starting with candidate `beans[0]`
and `closestDist = Infinity`.

The embedding takes each bean's already-projected NDC coordinates as data
(the projection itself is performed upstream by the camera); the scan is a
left fold whose state holds the current candidate and, as an `Option`, the
current closest distance (`none` plays the role of `Infinity`). -/

/-- A bean as the hero-selection scan sees it: its uniform scale and its
camera-projected NDC position. -/
structure SceneBean where
  scale : ℚ
  ndcX : ℚ
  ndcY : ℚ
deriving DecidableEq, Repr

/-- Euclidean distance of a bean's projected NDC position from the screen
center `(0,0)`: `Math.sqrt(projected.x ** 2 + projected.y ** 2)`. -/
noncomputable def ndcDist (b : SceneBean) : ℝ :=
  Real.sqrt ((b.ndcX : ℝ) ^ 2 + (b.ndcY : ℝ) ^ 2)

/-- One step of the `beans.forEach` scan in `transitionToSingleBean`:
hidden beans are skipped (`if (bean.scale.x <= 0) return`), and a bean
strictly closer than the current closest distance replaces the candidate
(`if (dist < closestDist)`).  `closestDist` lives in `EReal` so that the
initial `Infinity` is `⊤`. -/
noncomputable def selectStep (s : SceneBean × EReal) (b : SceneBean) :
    SceneBean × EReal :=
  if b.scale ≤ 0 then s
  else if (ndcDist b : EReal) < s.2 then (b, (ndcDist b : EReal)) else s

/-- Full hero selection: initial candidate `beans[0]` with
`closestDist = Infinity`, then the scan over the whole list. -/
noncomputable def selectHero : List SceneBean → Option SceneBean
  | [] => none
  | b :: bs => some (((b :: bs).foldl selectStep (b, ⊤)).1)

/-- State consistency of the scan: whenever the recorded closest distance is
finite, the candidate is visible and realises it. -/
theorem selectStep_consistent (l : List SceneBean) (s : SceneBean × EReal)
    (hs : s.2 ≠ ⊤ → 0 < s.1.scale ∧ (ndcDist s.1 : EReal) = s.2) :
    (l.foldl selectStep s).2 ≠ ⊤ →
      0 < (l.foldl selectStep s).1.scale ∧
        (ndcDist (l.foldl selectStep s).1 : EReal) = (l.foldl selectStep s).2 := by
  induction l generalizing s with
  | nil => exact hs
  | cons b t ih =>
    refine ih (selectStep s b) ?_
    intro hne
    unfold selectStep at hne ⊢
    split_ifs at hne ⊢ with h1 h2
    · exact hs hne
    · exact ⟨lt_of_not_le h1, rfl⟩
    · exact hs hne

/-- The scan's recorded closest distance never increases. -/
theorem selectStep_mono (l : List SceneBean) (s : SceneBean × EReal) :
    (l.foldl selectStep s).2 ≤ s.2 := by
  induction l generalizing s with
  | nil => exact le_refl _
  | cons b t ih =>
    refine le_trans (ih (selectStep s b)) ?_
    unfold selectStep
    split_ifs with h1 h2
    · exact le_refl _
    · exact le_of_lt h2
    · exact le_refl _

/-- Every visible bean of the list forces the final recorded closest
distance below its own distance. -/
theorem selectStep_min (l : List SceneBean) (s : SceneBean × EReal) :
    ∀ c ∈ l, 0 < c.scale →
      (l.foldl selectStep s).2 ≤ (ndcDist c : EReal) := by
  induction l generalizing s with
  | nil => intro c hc; cases hc
  | cons b t ih =>
    intro c hc hvis
    rcases List.mem_cons.mp hc with rfl | hmem
    · refine le_trans (selectStep_mono t (selectStep s c)) ?_
      unfold selectStep
      rw [if_neg (not_le.mpr hvis)]
      split_ifs with h2
      · exact le_refl _
      · exact le_of_not_lt h2
    · exact ih (selectStep s b) c hmem hvis

/-- Helper: hero selection minimizes the NDC distance to the screen center
among visible beans — for every visible bean `c` of the field, the selected
hero is itself visible and no farther from the center than `c`. -/
theorem selectHero_min (beans : List SceneBean) (c : SceneBean)
    (hc : c ∈ beans) (hvis : 0 < c.scale) :
    ∃ hero, selectHero beans = some hero ∧ 0 < hero.scale ∧
      ndcDist hero ≤ ndcDist c := by
  cases beans with
  | nil => cases hc
  | cons b bs =>
    have hmin := selectStep_min (b :: bs) (b, ⊤) c hc hvis
    have hne : ((b :: bs).foldl selectStep (b, ⊤)).2 ≠ ⊤ :=
      fun h => absurd (h ▸ hmin) (not_le.mpr (EReal.coe_lt_top _))
    obtain ⟨hsc, hdist⟩ := selectStep_consistent (b :: bs) (b, ⊤)
      (fun h => absurd rfl h) hne
    refine ⟨((b :: bs).foldl selectStep (b, ⊤)).1, rfl, hsc, ?_⟩
    rw [← EReal.coe_le_coe_iff]
    exact hdist ▸ hmin

/-- The three visible beans of the spec's hero-selection scenario, at NDC
distances `0.9`, `0.05` and `0.4` from the screen center. -/
def heroDemo0 : SceneBean := ⟨1, 9/10, 0⟩

/-- Second scenario bean, NDC distance `0.05`. -/
def heroDemo1 : SceneBean := ⟨1, 1/20, 0⟩

/-- Third scenario bean, NDC distance `0.4`. -/
def heroDemo2 : SceneBean := ⟨1, 2/5, 0⟩

/-- C4: hero selection minimizes NDC distance to screen center among beans
with `scale > 0`, and on the spec's concrete scenario — three visible beans
at distances `0.9`, `0.05`, `0.4` — the bean at distance `0.05` is
selected. -/
theorem hero_selection_minimizes :
    (∀ (beans : List SceneBean) (c : SceneBean), c ∈ beans → 0 < c.scale →
      ∃ hero, selectHero beans = some hero ∧ 0 < hero.scale ∧
        ndcDist hero ≤ ndcDist c) ∧
    selectHero [heroDemo0, heroDemo1, heroDemo2] = some heroDemo1 := by
  refine ⟨selectHero_min, ?_⟩
  have h10 : ndcDist heroDemo1 < ndcDist heroDemo0 := by
    unfold ndcDist heroDemo0 heroDemo1
    refine Real.sqrt_lt_sqrt (by positivity) ?_
    push_cast
    norm_num
  have h21 : ¬ ndcDist heroDemo2 < ndcDist heroDemo1 := by
    refine not_lt.mpr (Real.sqrt_le_sqrt ?_)
    unfold heroDemo1 heroDemo2
    push_cast
    norm_num
  have e1 : selectStep (heroDemo0, ⊤) heroDemo0 =
      (heroDemo0, (ndcDist heroDemo0 : EReal)) := by
    unfold selectStep
    rw [if_neg (by norm_num [heroDemo0]), if_pos (EReal.coe_lt_top _)]
  have e2 : selectStep (heroDemo0, (ndcDist heroDemo0 : EReal)) heroDemo1 =
      (heroDemo1, (ndcDist heroDemo1 : EReal)) := by
    unfold selectStep
    rw [if_neg (by norm_num [heroDemo1]), if_pos (EReal.coe_lt_coe_iff.mpr h10)]
  have e3 : selectStep (heroDemo1, (ndcDist heroDemo1 : EReal)) heroDemo2 =
      (heroDemo1, (ndcDist heroDemo1 : EReal)) := by
    unfold selectStep
    rw [if_neg (by norm_num [heroDemo2]),
      if_neg (fun h => h21 (EReal.coe_lt_coe_iff.mp h))]
  show some (([heroDemo0, heroDemo1, heroDemo2].foldl selectStep
      (heroDemo0, ⊤)).1) = some heroDemo1
  rw [List.foldl_cons, e1, List.foldl_cons, e2, List.foldl_cons, e3,
    List.foldl_nil]

/-- C4 witness: the general minimality statement instantiated on the
concrete scenario, hypotheses discharged at `heroDemo1`. -/
theorem hero_selection_minimizes_witness :
    heroDemo1 ∈ [heroDemo0, heroDemo1, heroDemo2] ∧ (0 : ℚ) < heroDemo1.scale ∧
    ∃ hero, selectHero [heroDemo0, heroDemo1, heroDemo2] = some hero ∧
      0 < hero.scale ∧ ndcDist hero ≤ ndcDist heroDemo1 :=
  ⟨by simp, by norm_num [heroDemo1],
    hero_selection_minimizes.1 [heroDemo0, heroDemo1, heroDemo2] heroDemo1
      (by simp) (by norm_num [heroDemo1])⟩

/-- Helper: if every bean of the list is hidden, the scan never moves off
the initial state. -/
theorem selectStep_all_hidden (l : List SceneBean) (s : SceneBean × EReal)
    (hl : ∀ c ∈ l, c.scale ≤ 0) : l.foldl selectStep s = s := by
  induction l generalizing s with
  | nil => rfl
  | cons b t ih =>
    have hstep : selectStep s b = s := by
      unfold selectStep
      rw [if_pos (hl b (List.mem_cons_self b t))]
    rw [List.foldl_cons, hstep]
    exact ih s fun c hc => hl c (List.mem_cons_of_mem b hc)

/-- C10: hero selection is total on a non-empty bean list — it always
returns some hero — and when no bean is visible (all scales `≤ 0`) the
selected hero is the head `beans[0]`, because the initial candidate is the
list head and is only replaced by a strictly closer visible bean. -/
theorem hero_selection_total (b : SceneBean) (bs : List SceneBean) :
    (∃ hero, selectHero (b :: bs) = some hero) ∧
    ((∀ c ∈ b :: bs, c.scale ≤ 0) → selectHero (b :: bs) = some b) := by
  constructor
  · exact ⟨((b :: bs).foldl selectStep (b, ⊤)).1, rfl⟩
  · intro hl
    show some (((b :: bs).foldl selectStep (b, ⊤)).1) = some b
    rw [selectStep_all_hidden (b :: bs) (b, ⊤) hl]

/-- C10 witness: a concrete two-bean field with both beans hidden selects
the first bean. -/
theorem hero_selection_total_witness :
    (∀ c ∈ [(⟨0, 1/2, 0⟩ : SceneBean), ⟨-1/4, 0, 0⟩], c.scale ≤ 0) ∧
    selectHero [(⟨0, 1/2, 0⟩ : SceneBean), ⟨-1/4, 0, 0⟩] =
      some (⟨0, 1/2, 0⟩ : SceneBean) :=
  ⟨by norm_num, (hero_selection_total ⟨0, 1/2, 0⟩ [⟨-1/4, 0, 0⟩]).2
    (by norm_num)⟩

/-! ## Euler-angle normalisation (`normalizeAngle`)

`transitionToSingleBean` normalises each of the hero's three Euler rotation
components with

```
const normalizeAngle = (angle) => {
  while (angle > Math.PI) angle -= Math.PI * 2;
  while (angle < -Math.PI) angle += Math.PI * 2;
  return angle;
};
```

Each loop is a well-founded recursion; the number of remaining iterations
is the ceiling of the signed excess divided by `2π`. -/

/-- Helper for loop termination: the iteration measure drops by one each
time the loop body runs. -/
theorem ceil_sub_one_lt {x : ℝ} (hx : 0 < x) : ⌈x - 1⌉₊ < ⌈x⌉₊ := by
  have h1 : 1 ≤ ⌈x⌉₊ := Nat.ceil_pos.mpr hx
  have h2 : ⌈x - 1⌉₊ ≤ ⌈x⌉₊ - 1 := by
    rw [Nat.ceil_le]
    push_cast [Nat.cast_sub h1]
    linarith [Nat.le_ceil x]
  exact lt_of_le_of_lt h2 (Nat.sub_lt (lt_of_lt_of_le Nat.one_pos h1) Nat.one_pos)

/-- First while loop: subtract `2π` while the angle exceeds `π`. -/
noncomputable def wrapDown (a : ℝ) : ℝ :=
  if h : a > Real.pi then wrapDown (a - Real.pi * 2) else a
termination_by ⌈(a - Real.pi) / (Real.pi * 2)⌉₊
decreasing_by
  have hx : 0 < (a - Real.pi) / (Real.pi * 2) :=
    div_pos (by linarith) (by positivity)
  have : (a - Real.pi * 2 - Real.pi) / (Real.pi * 2)
      = (a - Real.pi) / (Real.pi * 2) - 1 := by
    field_simp
    ring
  rw [this]
  exact ceil_sub_one_lt hx

/-- Second while loop: add `2π` while the angle is below `-π`. -/
noncomputable def wrapUp (a : ℝ) : ℝ :=
  if h : a < -Real.pi then wrapUp (a + Real.pi * 2) else a
termination_by ⌈(-Real.pi - a) / (Real.pi * 2)⌉₊
decreasing_by
  have hx : 0 < (-Real.pi - a) / (Real.pi * 2) :=
    div_pos (by linarith) (by positivity)
  have : (-Real.pi - (a + Real.pi * 2)) / (Real.pi * 2)
      = (-Real.pi - a) / (Real.pi * 2) - 1 := by
    field_simp
    ring
  rw [this]
  exact ceil_sub_one_lt hx

/-- The `normalizeAngle` arrow function of `transitionToSingleBean`. -/
noncomputable def normalizeAngle (a : ℝ) : ℝ := wrapUp (wrapDown a)

/-- After the first loop, the angle is at most `π`. -/
theorem wrapDown_le (a : ℝ) : wrapDown a ≤ Real.pi := by
  induction a using wrapDown.induct with
  | case1 a h ih => rw [wrapDown, dif_pos h]; exact ih
  | case2 a h => rw [wrapDown, dif_neg h]; exact le_of_not_lt h

/-- The first loop changes the angle by an integer multiple of `2π`. -/
theorem wrapDown_sub_int (a : ℝ) : ∃ k : ℤ, wrapDown a = a + Real.pi * 2 * k := by
  induction a using wrapDown.induct with
  | case1 a h ih =>
    obtain ⟨k, hk⟩ := ih
    exact ⟨k - 1, by rw [wrapDown, dif_pos h, hk]; push_cast; ring⟩
  | case2 a h => exact ⟨0, by rw [wrapDown, dif_neg h]; push_cast; ring⟩

/-- After the second loop, the angle is at least `-π`. -/
theorem wrapUp_ge (a : ℝ) : -Real.pi ≤ wrapUp a := by
  induction a using wrapUp.induct with
  | case1 a h ih => rw [wrapUp, dif_pos h]; exact ih
  | case2 a h => rw [wrapUp, dif_neg h]; exact le_of_not_lt h

/-- The second loop never pushes an angle that was at most `π` above `π`. -/
theorem wrapUp_le (a : ℝ) (ha : a ≤ Real.pi) : wrapUp a ≤ Real.pi := by
  induction a using wrapUp.induct with
  | case1 a h ih =>
    rw [wrapUp, dif_pos h]
    exact ih (by nlinarith [Real.pi_pos])
  | case2 a h => rwa [wrapUp, dif_neg h]

/-- The second loop changes the angle by an integer multiple of `2π`. -/
theorem wrapUp_sub_int (a : ℝ) : ∃ k : ℤ, wrapUp a = a + Real.pi * 2 * k := by
  induction a using wrapUp.induct with
  | case1 a h ih =>
    obtain ⟨k, hk⟩ := ih
    exact ⟨k + 1, by rw [wrapUp, dif_pos h, hk]; push_cast; ring⟩
  | case2 a h => exact ⟨0, by rw [wrapUp, dif_neg h]; push_cast; ring⟩

/-- C5 counterexample: at the input `-π` (already in range for both loop
guards) `normalizeAngle` returns `-π` itself, so the returned angle is NOT
always in the half-open interval `(-π, π]`. -/
theorem normalizeAngle_neg_pi_counterexample :
    normalizeAngle (-Real.pi) = -Real.pi ∧
    ¬ (-Real.pi < normalizeAngle (-Real.pi)) := by
  have h1 : ¬ (-Real.pi > Real.pi) := by linarith [Real.pi_pos]
  have h2 : ¬ (-Real.pi < -Real.pi) := lt_irrefl _
  have h : normalizeAngle (-Real.pi) = -Real.pi := by
    rw [normalizeAngle, wrapDown, dif_neg h1, wrapUp, dif_neg h2]
  exact ⟨h, by rw [h]; exact lt_irrefl _⟩

/-- C5 (amended): for every input angle, `normalizeAngle` returns an angle
in the closed interval `[-π, π]` differing from the input by an integer
multiple of `2π`; the lower endpoint `-π` is attainable (e.g. at input
`-π`), so the interval is closed, not half-open. -/
theorem normalizeAngle_range (a : ℝ) :
    -Real.pi ≤ normalizeAngle a ∧ normalizeAngle a ≤ Real.pi ∧
    ∃ k : ℤ, normalizeAngle a = a + Real.pi * 2 * k := by
  refine ⟨wrapUp_ge _, wrapUp_le _ (wrapDown_le a), ?_⟩
  obtain ⟨k1, hk1⟩ := wrapDown_sub_int a
  obtain ⟨k2, hk2⟩ := wrapUp_sub_int (wrapDown a)
  exact ⟨k1 + k2, by rw [normalizeAngle, hk2, hk1]; push_cast; ring⟩

/-! ## Mode-transition state machine (`toggleSingleBeanMode`)

The observable state of the controller: the `isTransitioning` guard, the
externally-reflected checkbox value `CONFIG.singleBeanMode`, the abstract
transition phase (which of the two transition functions, if any, is in
flight), and a count of GSAP timelines created so far.

A GUI mode-change request first writes the new value into
`CONFIG.singleBeanMode` (the checkbox binding) and then invokes
`toggleSingleBeanMode(enabled)` with that value; `lil-gui` only fires the
handler when the displayed value actually changed. -/

/-- The four spec-level phases of the transition controller. -/
inductive Mode where
  | aggregate
  | enteringFocus
  | focused
  | exitingFocus
deriving DecidableEq, Repr

/-- Observable controller state. -/
structure TransitionState where
  isTransitioning : Bool
  singleBeanMode : Bool
  mode : Mode
  timelines : ℕ
deriving DecidableEq, Repr

/-- `toggleSingleBeanMode(enabled)`: while a transition is in flight the
request is dropped and the checkbox value is written back as `!enabled`
(the source comment: "Revert checkbox to previous state"); otherwise the
guard is raised and `transitionToSingleBean` / `transitionToMultiBean`
starts exactly one new timeline. -/
def toggleSingleBeanMode (enabled : Bool) (s : TransitionState) :
    TransitionState :=
  if s.isTransitioning then
    { s with singleBeanMode := !enabled }
  else
    { s with
      isTransitioning := true
      timelines := s.timelines + 1
      mode := if enabled then Mode.enteringFocus else Mode.exitingFocus }

/-- A GUI request: the checkbox binding writes `enabled` into
`CONFIG.singleBeanMode`, then fires `toggleSingleBeanMode enabled`. -/
def requestModeChange (enabled : Bool) (s : TransitionState) :
    TransitionState :=
  toggleSingleBeanMode enabled { s with singleBeanMode := enabled }

/-- C6: a mode-change request arriving while a transition is in flight is
dropped, not deferred: the phase, the `isTransitioning` guard and the
timeline count are all unchanged and the checkbox is written back to
`!enabled`; when the request actually toggled the displayed value (the GUI
pathway, where previously `singleBeanMode = !enabled`) the entire state is
exactly the previous one; and in particular a second "enter focus" request
during `EnteringFocus` leaves the phase `EnteringFocus`, the guard raised,
and starts no second timeline. -/
theorem request_during_transition_dropped (s : TransitionState) (e : Bool)
    (ht : s.isTransitioning = true) :
    requestModeChange e s = { s with singleBeanMode := !e } ∧
    (s.singleBeanMode = !e → requestModeChange e s = s) ∧
    (s.mode = Mode.enteringFocus →
      (requestModeChange true s).mode = Mode.enteringFocus ∧
      (requestModeChange true s).isTransitioning = true ∧
      (requestModeChange true s).timelines = s.timelines) := by
  have key : ∀ e' : Bool, requestModeChange e' s = { s with singleBeanMode := !e' } := by
    intro e'
    unfold requestModeChange toggleSingleBeanMode
    rw [if_pos (show ({ s with singleBeanMode := e' } : TransitionState).isTransitioning from ht)]
  refine ⟨key e, fun hprev => ?_, fun hmode => ?_⟩
  · rw [key e, ← hprev]
  · rw [key true]
    exact ⟨hmode, ht, rfl⟩

/-- C6 witness: a concrete mid-transition state (`EnteringFocus`, guard
raised, one timeline, checkbox `true`) with an exit request `e = false`. -/
theorem request_during_transition_dropped_witness :
    (⟨true, true, Mode.enteringFocus, 1⟩ : TransitionState).isTransitioning = true ∧
    requestModeChange false ⟨true, true, Mode.enteringFocus, 1⟩ =
      ⟨true, true, Mode.enteringFocus, 1⟩ :=
  ⟨rfl, (request_during_transition_dropped ⟨true, true, Mode.enteringFocus, 1⟩
    false rfl).2.1 rfl⟩

/-! ## Bean fragment shader: the crease mask

From `BeanShaderFragmentShader`: a rounded-rectangle signed distance in the
raw parametric `(u,v)` space, turned into a hard `{0,1}` mask by `step`,
and gated by the front-face test `step(0.0, vPosition.z)`. -/

/-- GLSL `step(edge, x)`: `0.0` if `x < edge`, else `1.0`. -/
noncomputable def glslStep (edge x : ℝ) : ℝ := if x < edge then 0 else 1

/-- GLSL `mix(x, y, a) = x*(1-a) + y*a`. -/
def glslMix (x y a : ℝ) : ℝ := x * (1 - a) + y * a

/-- The rounded-rectangle signed distance of the crease block:
`p = abs(vec2(u,v))`, `q = p - size + creaseRadius`,
`dist = min(max(q.x,q.y),0) + length(max(q,0)) - creaseRadius`. -/
noncomputable def creaseDist (creaseWidth creaseLength creaseRadius u v : ℝ) : ℝ :=
  let px := |u|
  let py := |v|
  let qx := px - creaseWidth + creaseRadius
  let qy := py - creaseLength + creaseRadius
  min (max qx qy) 0 + Real.sqrt (max qx 0 ^ 2 + max qy 0 ^ 2) - creaseRadius

/-- The hard crease mask: `creaseLine = 1.0 - step(0.0, dist)` multiplied
by the front-face gate `step(0.0, vPosition.z)` (`z` is the model-space
position's z component). -/
noncomputable def creaseLine (creaseWidth creaseLength creaseRadius u v z : ℝ) : ℝ :=
  (1 - glslStep 0 (creaseDist creaseWidth creaseLength creaseRadius u v)) *
    glslStep 0 z

/-- C7: the crease test is a hard binary mask driven by the
rounded-rectangle signed distance: the mask only ever takes the values `0`
and `1`; with `creaseWidth = 0.03`, `creaseLength = 0.7`,
`creaseRadius = 0` the parametric point `(0,0)` has distance `≤ 0` and is
painted whenever the front-face test passes (`z > 0`), while `(0.5, 0)`
has distance `> 0` and is never painted. -/
theorem crease_mask_hard_binary :
    (∀ w l r u v z : ℝ, creaseLine w l r u v z = 0 ∨ creaseLine w l r u v z = 1) ∧
    creaseDist 0.03 0.7 0 0 0 ≤ 0 ∧
    0 < creaseDist 0.03 0.7 0 0.5 0 ∧
    (∀ z : ℝ, 0 < z → creaseLine 0.03 0.7 0 0 0 z = 1) ∧
    (∀ z : ℝ, creaseLine 0.03 0.7 0 0.5 0 z = 0) := by
  have hd0 : creaseDist 0.03 0.7 0 0 0 = -(0.03 : ℝ) := by
    unfold creaseDist
    norm_num [Real.sqrt_eq_zero']
  have hsq1 : Real.sqrt (2209 : ℝ) = 47 := by
    rw [show (2209 : ℝ) = 47 ^ 2 by norm_num]
    exact Real.sqrt_sq (by norm_num)
  have hsq2 : Real.sqrt (10000 : ℝ) = 100 := by
    rw [show (10000 : ℝ) = 100 ^ 2 by norm_num]
    exact Real.sqrt_sq (by norm_num)
  have hd5 : creaseDist 0.03 0.7 0 0.5 0 = (0.47 : ℝ) := by
    simp only [creaseDist]
    rw [show |(0.5 : ℝ)| = 0.5 from abs_of_pos (by norm_num)]
    norm_num [max_def, min_def, hsq1, hsq2]
  refine ⟨?_, by rw [hd0]; norm_num, by rw [hd5]; norm_num, ?_, ?_⟩
  · intro w l r u v z
    unfold creaseLine glslStep
    split_ifs <;> norm_num
  · intro z hz
    unfold creaseLine glslStep
    rw [hd0]
    rw [if_pos (by norm_num), if_neg (not_lt.mpr (le_of_lt hz))]
    norm_num
  · intro z
    unfold creaseLine glslStep
    rw [hd5]
    rw [if_neg (by norm_num)]
    split_ifs <;> norm_num

/-- C7 witness: the front-face branch instantiated at `z = 1`. -/
theorem crease_mask_hard_binary_witness :
    (0 : ℝ) < 1 ∧ creaseLine 0.03 0.7 0 0 0 1 = 1 :=
  ⟨by norm_num, crease_mask_hard_binary.2.2.2.1 1 (by norm_num)⟩

/-! ## CMYK edge-halo post-process (`CMYKShaderFragmentShader`)

The pass samples the composited frame at the center and at three offsets
120° apart, builds per-channel "edge" values
`max(0, sampledAlpha - centerAlpha)`, and composes a fringe color either
additively or subtractively (`multiplyBlend`). -/

/-- An RGBA texel of the composited frame. -/
structure RGBA where
  r : ℝ
  g : ℝ
  b : ℝ
  a : ℝ

/-- An RGB color (the fringe color of the halo pass). -/
structure RGB where
  r : ℝ
  g : ℝ
  b : ℝ

/-- The uniforms of the CMYK pass. -/
structure CMYKUniforms where
  offset : ℝ
  time : ℝ
  breatheEnabled : ℝ
  breatheIntensity : ℝ
  breatheSpeed : ℝ
  breatheWaveFreq : ℝ
  rotationSpeed : ℝ
  verticalWave : ℝ
  multiplyBlend : ℝ

/-- The first half of the CMYK fragment shader: breathing wave, the three
rotating sample directions with magnitude `offset * breathe`, the three
offset samples, and the three edge values
`max(0.0, sample.a - center.a)`, returned as `(cyan, magenta, yellow)`. -/
noncomputable def cmykEdges (tex : ℝ × ℝ → RGBA) (uni : CMYKUniforms)
    (uv : ℝ × ℝ) : ℝ × ℝ × ℝ :=
  let center := tex uv
  let waveCoord := glslMix uv.1 (1 - uv.2) uni.verticalWave
  let wavePhase := waveCoord * uni.breatheWaveFreq * 6.28318530718 -
    uni.time * uni.breatheSpeed
  let wave := Real.sin wavePhase
  let breathe := 1 + uni.breatheEnabled * uni.breatheIntensity * wave
  let animOffset := uni.offset * breathe
  let baseAngle := uni.time * uni.rotationSpeed
  let angleCyan := baseAngle
  let angleMagenta := baseAngle + 2.094
  let angleYellow := baseAngle + 4.189
  let cr := tex (uv.1 + Real.cos angleCyan * animOffset,
    uv.2 + Real.sin angleCyan * animOffset)
  let cm := tex (uv.1 + Real.cos angleMagenta * animOffset,
    uv.2 + Real.sin angleMagenta * animOffset)
  let cy := tex (uv.1 + Real.cos angleYellow * animOffset,
    uv.2 + Real.sin angleYellow * animOffset)
  (max 0 (cr.a - center.a), max 0 (cm.a - center.a), max 0 (cy.a - center.a))

/-- The blend-mode block of the shader: subtractive ("ink") mixing when
`multiplyBlend > 0.5`, gated on the epsilon test
`step(0.001, cyanEdge + magentaEdge + yellowEdge)` over the SUM of the
edges; additive mixing `cyan*cEdge + magenta*mEdge + yellow*yEdge` (with
`cyan = (0,1,1)`, `magenta = (1,0,1)`, `yellow = (1,1,0)`) otherwise. -/
noncomputable def cmykFringes (multiplyBlend cyanEdge magentaEdge yellowEdge : ℝ) :
    RGB :=
  if multiplyBlend > 0.5 then
    let hasEdge := glslStep 0.001 (cyanEdge + magentaEdge + yellowEdge)
    ⟨(1 - cyanEdge) * hasEdge, (1 - magentaEdge) * hasEdge,
      (1 - yellowEdge) * hasEdge⟩
  else
    ⟨0 * cyanEdge + 1 * magentaEdge + 1 * yellowEdge,
      1 * cyanEdge + 0 * magentaEdge + 1 * yellowEdge,
      1 * cyanEdge + 1 * magentaEdge + 0 * yellowEdge⟩

/-- The whole CMYK fragment: fringe color mixed against the center color by
the center alpha, and final alpha `max(center.a, 0.85 * maxEdge)`. -/
noncomputable def cmykFrag (tex : ℝ × ℝ → RGBA) (uni : CMYKUniforms)
    (uv : ℝ × ℝ) : RGBA :=
  let center := tex uv
  let e := cmykEdges tex uni uv
  let fringes := cmykFringes uni.multiplyBlend e.1 e.2.1 e.2.2
  let fringeAlpha := max (max e.1 e.2.1) e.2.2
  ⟨glslMix fringes.r center.r center.a,
    glslMix fringes.g center.g center.a,
    glslMix fringes.b center.b center.a,
    max center.a (fringeAlpha * 0.85)⟩

/-- A frame with a hard alpha/color step along the horizontal coordinate at
threshold `s`: texel `lo` strictly left of `s`, texel `hi` from `s` on. -/
noncomputable def stepTex (s : ℝ) (lo hi : RGBA) : ℝ × ℝ → RGBA :=
  fun p => if p.1 < s then lo else hi

/-- On a step frame, any sample displaced horizontally by at most `off`
from a pixel farther than `off` from the step sees the pixel's own
texel side. -/
theorem stepTex_alpha_const (s : ℝ) (lo hi : RGBA) (p q : ℝ × ℝ) (off : ℝ)
    (hfar : off < |p.1 - s|) (hd : |q.1 - p.1| ≤ off) :
    (stepTex s lo hi q).a = (stepTex s lo hi p).a := by
  unfold stepTex
  obtain ⟨hd1, hd2⟩ := abs_le.mp hd
  rcases lt_or_le p.1 s with h | h
  · have hp : |p.1 - s| = s - p.1 := by rw [abs_of_neg (by linarith)]; ring
    rw [hp] at hfar
    rw [if_pos h, if_pos (by linarith)]
  · have hp : |p.1 - s| = p.1 - s := abs_of_nonneg (by linarith)
    rw [hp] at hfar
    rw [if_neg (not_lt.mpr h), if_neg (not_lt.mpr (by linarith))]

/-- C8: on a frame whose alpha channel is constant everywhere, all three
edge values are zero and the fringe color is zero in both blend modes; on
a hard-alpha-step frame with breathing disabled (sample magnitude exactly
`offset`), every pixel farther than `offset` from the step has all three
edge values zero, so nonzero fringe can appear only within `offset` of the
step. -/
theorem halo_fringe_zero :
    (∀ (tex : ℝ × ℝ → RGBA) (uni : CMYKUniforms) (uv : ℝ × ℝ) (A : ℝ),
      (∀ p, (tex p).a = A) →
      cmykEdges tex uni uv = (0, 0, 0) ∧
      ∀ mb : ℝ, cmykFringes mb 0 0 0 = ⟨0, 0, 0⟩) ∧
    (∀ (s : ℝ) (lo hi : RGBA) (uni : CMYKUniforms) (uv : ℝ × ℝ),
      uni.breatheEnabled = 0 → 0 ≤ uni.offset → uni.offset < |uv.1 - s| →
      cmykEdges (stepTex s lo hi) uni uv = (0, 0, 0)) := by
  have hfz : ∀ mb : ℝ, cmykFringes mb 0 0 0 = ⟨0, 0, 0⟩ := by
    intro mb
    unfold cmykFringes glslStep
    split_ifs with h1 h2
    · norm_num [RGB.mk.injEq]
    · norm_num at h2
    · norm_num [RGB.mk.injEq]
  constructor
  · intro tex uni uv A h
    refine ⟨?_, hfz⟩
    simp [cmykEdges, h, sub_self]
  · intro s lo hi uni uv hbe hoff hfar
    have hsample : ∀ θ : ℝ,
        (stepTex s lo hi (uv.1 + Real.cos θ * uni.offset,
          uv.2 + Real.sin θ * uni.offset)).a = (stepTex s lo hi uv).a := by
      intro θ
      refine stepTex_alpha_const s lo hi uv _ uni.offset hfar ?_
      show |uv.1 + Real.cos θ * uni.offset - uv.1| ≤ uni.offset
      rw [add_sub_cancel_left, abs_mul]
      calc |Real.cos θ| * |uni.offset| ≤ 1 * |uni.offset| :=
            mul_le_mul_of_nonneg_right (Real.abs_cos_le_one θ) (abs_nonneg _)
        _ = uni.offset := by rw [one_mul, abs_of_nonneg hoff]
    simp only [cmykEdges, hbe, zero_mul, add_zero, mul_one]
    rw [hsample (uni.time * uni.rotationSpeed),
      hsample (uni.time * uni.rotationSpeed + 2.094),
      hsample (uni.time * uni.rotationSpeed + 4.189)]
    simp [sub_self]

/-- C8 witness: the step-frame branch instantiated on a concrete hard step
at `s = 0.5` (transparent left, opaque right), breathing disabled,
`offset = 0.01`, pixel at `uv = (0.1, 0.3)`. -/
theorem halo_fringe_zero_witness :
    ((⟨0.01, 0, 0, 0.2, 1.5, 2, 0.5, 0, 1⟩ : CMYKUniforms).breatheEnabled = 0 ∧
      (0 : ℝ) ≤ (⟨0.01, 0, 0, 0.2, 1.5, 2, 0.5, 0, 1⟩ : CMYKUniforms).offset ∧
      (⟨0.01, 0, 0, 0.2, 1.5, 2, 0.5, 0, 1⟩ : CMYKUniforms).offset <
        |(0.1 : ℝ) - 0.5|) ∧
    cmykEdges (stepTex 0.5 ⟨0, 0, 0, 0⟩ ⟨1, 1, 1, 1⟩)
      ⟨0.01, 0, 0, 0.2, 1.5, 2, 0.5, 0, 1⟩ (0.1, 0.3) = (0, 0, 0) :=
  ⟨⟨rfl, by norm_num, by rw [show |(0.1 : ℝ) - 0.5| = 0.4 by rw [abs_of_neg] <;> norm_num]; norm_num⟩,
    halo_fringe_zero.2 0.5 ⟨0, 0, 0, 0⟩ ⟨1, 1, 1, 1⟩
      ⟨0.01, 0, 0, 0.2, 1.5, 2, 0.5, 0, 1⟩ (0.1, 0.3) rfl (by norm_num)
      (by rw [show |(0.1 : ℝ) - 0.5| = 0.4 by rw [abs_of_neg] <;> norm_num]; norm_num)⟩

/-- C9: in the subtractive ("ink") blend mode the fringe is zeroed exactly
when the SUM of the three edge values is below the epsilon `0.001` — a
test on the sum, not per channel — and otherwise equals
`(1-cyanEdge, 1-magentaEdge, 1-yellowEdge)`; the additive mode sums the
edge-weighted cyan/magenta/yellow colors with no epsilon test; and the
sum test is visibly not per-channel: edges `(0, 0, 0.002)` leave the
cyan and magenta channels at `1`, not zeroed. -/
theorem ink_blend_epsilon_on_sum :
    (∀ c m y : ℝ, c + m + y < 0.001 → cmykFringes 1 c m y = ⟨0, 0, 0⟩) ∧
    (∀ c m y : ℝ, 0.001 ≤ c + m + y →
      cmykFringes 1 c m y = ⟨1 - c, 1 - m, 1 - y⟩) ∧
    (∀ c m y : ℝ, cmykFringes 0 c m y = ⟨m + y, c + y, c + m⟩) ∧
    cmykFringes 1 0 0 (2/1000) = ⟨1, 1, 1 - 2/1000⟩ := by
  have hsub : ∀ c m y : ℝ, 0.001 ≤ c + m + y →
      cmykFringes 1 c m y = ⟨1 - c, 1 - m, 1 - y⟩ := by
    intro c m y h
    unfold cmykFringes glslStep
    rw [if_pos (by norm_num : (1 : ℝ) > 0.5), if_neg (not_lt.mpr h)]
    norm_num
  refine ⟨?_, hsub, ?_, ?_⟩
  · intro c m y h
    unfold cmykFringes glslStep
    rw [if_pos (by norm_num : (1 : ℝ) > 0.5), if_pos h]
    norm_num
  · intro c m y
    unfold cmykFringes
    rw [if_neg (by norm_num : ¬ (0 : ℝ) > 0.5)]
    norm_num [RGB.mk.injEq]
  · rw [hsub 0 0 (2/1000) (by norm_num)]
    norm_num

/-- C9 witness: the below-epsilon branch instantiated at zero edges. -/
theorem ink_blend_epsilon_on_sum_witness :
    ((0 : ℝ) + 0 + 0 < 0.001) ∧ cmykFringes 1 0 0 0 = ⟨0, 0, 0⟩ :=
  ⟨by norm_num, ink_blend_epsilon_on_sum.1 0 0 0 (by norm_num)⟩

/-! ## Parametric bean geometry

From `createBeanGeometryClassic` / `createBeanGeometrySuperellipse` in
`bean-model.js`: both tessellate a `(u,v)` grid over
`iv = 0..segmentsV`, `iu = 0..segmentsU` with
`u = iu/segmentsU*2-1`, `v = iv/segmentsV*2-1`, push one `(x,y,z)` vertex
per grid point, and build the index buffer by splitting every
`(iu,iv)` quad into the two triangles `(a,b,c)` and `(b,d,c)`.  The index
loop is textually identical in both generators (`gridIndices` below).

The shape fields live in one `ShapeConfig`; `grooveDepth`/`grooveWidth`
are the `params` defaults of the source (classic `0.2`/`0.25`,
superellipse `0.22`/`0.28`). -/

/-- The shape-parameter set of both generators. -/
structure ShapeConfig where
  beanScaleX : ℝ
  beanScaleY : ℝ
  beanScaleZ : ℝ
  kidneyAmount : ℝ
  kidneyOffset : ℝ
  backBulge : ℝ
  endPinch : ℝ
  endPointiness : ℝ
  grooveDepth : ℝ
  grooveWidth : ℝ

/-- The documented parameter ranges (debug-GUI slider ranges and the
source defaults): scales in `[0,1]`, kidney amount and back bulge in
`[0,1/2]`, end pinch and pointiness in `[0,1]`, groove depth in
`[0,1/4]`. -/
def ShapeConfig.Valid (c : ShapeConfig) : Prop :=
  0 ≤ c.beanScaleX ∧ c.beanScaleX ≤ 1 ∧
  0 ≤ c.beanScaleY ∧ c.beanScaleY ≤ 1 ∧
  0 ≤ c.beanScaleZ ∧ c.beanScaleZ ≤ 1 ∧
  0 ≤ c.kidneyAmount ∧ c.kidneyAmount ≤ 1/2 ∧
  0 ≤ c.backBulge ∧ c.backBulge ≤ 1/2 ∧
  0 ≤ c.endPinch ∧ c.endPinch ≤ 1 ∧
  0 ≤ c.endPointiness ∧ c.endPointiness ≤ 1 ∧
  0 ≤ c.grooveDepth ∧ c.grooveDepth ≤ 1/4

/-- The `smoothstep` helper of `bean-model.js`. -/
noncomputable def smoothstep (edge0 edge1 x : ℝ) : ℝ :=
  let t := max 0 (min 1 ((x - edge0) / (edge1 - edge0)))
  t * t * (3 - 2 * t)

/-- One vertex of the classic (ellipsoid) generator: ellipsoid placement
from `θ = acos v`, `φ = u·π`, groove carving on the `+z` hemisphere, the
asymmetric `z` multiplier, and the end taper on `x` and `z`. -/
noncomputable def classicPoint (c : ShapeConfig) (u v : ℝ) : ℝ × ℝ × ℝ :=
  let theta := Real.arccos v
  let phi := u * Real.pi
  let x0 := Real.sin theta * Real.sin phi * c.beanScaleX
  let y := Real.cos theta * c.beanScaleY
  let z0 := Real.sin theta * Real.cos phi * c.beanScaleZ
  let grooveMask := smoothstep c.grooveWidth 0 |u|
  let z1 := if z0 > 0 then z0 - c.grooveDepth * grooveMask * (1 - v * v * 0.4) else z0
  let x1 := if z0 > 0 then x0 * (1 - grooveMask * 0.1) else x0
  let z2 := z1 * (1 + 0.03 * Real.sin (v * Real.pi * 0.5))
  let taper := 1 - |v| * 0.08
  (x1 * taper, y, z2 * taper)

/-- One vertex of the superellipse (kidney) generator: superellipse
cross-section with exponent `n = 2.5`, tapered base radius, kidney shift,
back-side bulge, end pinch, groove carving scaled by the base radius, and
the residual asymmetric perturbations. -/
noncomputable def superellipsePoint (c : ShapeConfig) (u v : ℝ) : ℝ × ℝ × ℝ :=
  let phi := u * Real.pi
  let n : ℝ := 2.5
  let cosPhi := Real.cos phi
  let sinPhi := Real.sin phi
  let signX := Real.sign sinPhi
  let signZ := Real.sign cosPhi
  let crossX := signX * |sinPhi| ^ (2 / n)
  let crossZ := signZ * |cosPhi| ^ (2 / n)
  let absV := |v|
  let vSquared := v * v
  let baseRadius := (1 - absV ^ (2 + c.endPointiness)) ^ (0.5 + c.endPointiness * 0.5)
  let kidneyShift := c.kidneyAmount * Real.sin ((v - c.kidneyOffset) * Real.pi * 0.9)
  let zSign := if crossZ < 0 then (1 : ℝ) else 0
  let bulgeFactor := 1 + c.backBulge * zSign * (1 - vSquared * 0.5)
  let pinchFactor := 1 - c.endPinch * absV ^ (3 : ℝ)
  let x0 := crossX * baseRadius * c.beanScaleX * pinchFactor +
    kidneyShift * baseRadius * c.beanScaleX
  let y := v * c.beanScaleY
  let z0 := crossZ * baseRadius * c.beanScaleZ * bulgeFactor
  let grooveMask := smoothstep c.grooveWidth 0 |u|
  let z1 := if z0 > 0 then
    z0 - c.grooveDepth * grooveMask * (1 - vSquared * 0.5) * baseRadius else z0
  let x1 := if z0 > 0 then x0 * (1 - grooveMask * 0.08) else x0
  let asymmetry : ℝ := 0.02
  let x2 := x1 + asymmetry * Real.sin (v * Real.pi * 2.1) * baseRadius
  let z2 := z1 * (1 + asymmetry * Real.sin (v * Real.pi * 1.3))
  (x2, y, z2)

/-- The vertex loop of `createBeanGeometryClassic`: outer `iv`, inner `iu`,
one vertex per grid point. -/
noncomputable def classicVertices (c : ShapeConfig) (segmentsU segmentsV : ℕ) :
    List (ℝ × ℝ × ℝ) :=
  (List.range (segmentsV + 1)).flatMap fun iv : ℕ =>
    (List.range (segmentsU + 1)).map fun iu : ℕ =>
      classicPoint c ((iu : ℝ) / segmentsU * 2 - 1) ((iv : ℝ) / segmentsV * 2 - 1)

/-- The vertex loop of `createBeanGeometrySuperellipse`. -/
noncomputable def superellipseVertices (c : ShapeConfig) (segmentsU segmentsV : ℕ) :
    List (ℝ × ℝ × ℝ) :=
  (List.range (segmentsV + 1)).flatMap fun iv : ℕ =>
    (List.range (segmentsU + 1)).map fun iu : ℕ =>
      superellipsePoint c ((iu : ℝ) / segmentsU * 2 - 1) ((iv : ℝ) / segmentsV * 2 - 1)

/-- The index loop shared verbatim by both generators: each `(iu,iv)` quad
emits the two triangles `(a,b,c)` and `(b,d,c)` with
`a = iv*(segmentsU+1)+iu`, `b = a+1`, `c = a+(segmentsU+1)`, `d = c+1`. -/
def gridIndices (segmentsU segmentsV : ℕ) : List (ℕ × ℕ × ℕ) :=
  (List.range segmentsV).flatMap fun iv =>
    (List.range segmentsU).flatMap fun iu =>
      let a := iv * (segmentsU + 1) + iu
      let b := a + 1
      let c := a + (segmentsU + 1)
      let d := c + 1
      [(a, b, c), (b, d, c)]

/-- Helper: the length of a `flatMap` over `List.range` with constant-sized
blocks. -/
theorem length_range_flatMap {β : Type} (f : ℕ → List β) (n k : ℕ)
    (hf : ∀ i, (f i).length = k) :
    ((List.range n).flatMap f).length = n * k := by
  induction n with
  | zero => simp
  | succ n ih =>
    rw [List.range_succ, List.flatMap_append, List.length_append, ih]
    simp [hf]
    ring

/-- Helper: vertex count of either generator's grid. -/
theorem length_gridVertices {p : ℕ → ℕ → ℝ × ℝ × ℝ} (sU sV : ℕ) :
    ((List.range (sV + 1)).flatMap fun iv =>
      (List.range (sU + 1)).map fun iu => p iu iv).length =
      (sU + 1) * (sV + 1) := by
  rw [length_range_flatMap _ _ (sU + 1) (fun i => by simp)]
  ring

/-- Helper: the index list has `2·segmentsU·segmentsV` triangles. -/
theorem length_gridIndices (sU sV : ℕ) :
    (gridIndices sU sV).length = sU * sV * 2 := by
  unfold gridIndices
  rw [length_range_flatMap _ _ (sU * 2) (fun i => ?_)]
  · ring
  · rw [length_range_flatMap _ _ 2 (fun j => by simp)]

/-- Helper: every triangle's indices are within vertex-array bounds. -/
theorem gridIndices_bounds (sU sV : ℕ) :
    ∀ t ∈ gridIndices sU sV, t.1 < (sU + 1) * (sV + 1) ∧
      t.2.1 < (sU + 1) * (sV + 1) ∧ t.2.2 < (sU + 1) * (sV + 1) := by
  intro t ht
  unfold gridIndices at ht
  obtain ⟨iv, hiv, ht⟩ := List.mem_flatMap.mp ht
  obtain ⟨iu, hiu, ht⟩ := List.mem_flatMap.mp ht
  rw [List.mem_range] at hiv hiu
  have key : (iv + 1) * (sU + 1) ≤ sV * (sU + 1) := Nat.mul_le_mul_right _ hiv
  have e1 : (iv + 1) * (sU + 1) = iv * (sU + 1) + (sU + 1) := by ring
  have e2 : (sU + 1) * (sV + 1) = sV * (sU + 1) + (sU + 1) := by ring
  simp only [List.mem_cons, List.mem_singleton, List.not_mem_nil, or_false] at ht
  rcases ht with rfl | rfl <;> refine ⟨?_, ?_, ?_⟩ <;> dsimp only <;> omega

/-- Helper: absolute value of a product from factor bounds. -/
theorem abs_mul_le {a b A B : ℝ} (ha : |a| ≤ A) (hb : |b| ≤ B) :
    |a * b| ≤ A * B := by
  rw [abs_mul]
  exact mul_le_mul ha hb (abs_nonneg b) ((abs_nonneg a).trans ha)

/-- Helper: triangle bound for a difference. -/
theorem abs_sub_le_sum (a b : ℝ) : |a - b| ≤ |a| + |b| := by
  rw [sub_eq_add_neg]
  simpa [abs_neg] using abs_add a (-b)

/-- The clamped `smoothstep` always lands in `[0, 1]`, whatever the edges
(the clamp `max 0 (min 1 ·)` does not depend on the edge order). -/
theorem smoothstep_mem (edge0 edge1 x : ℝ) :
    0 ≤ smoothstep edge0 edge1 x ∧ smoothstep edge0 edge1 x ≤ 1 := by
  simp only [smoothstep]
  set t := max 0 (min 1 ((x - edge0) / (edge1 - edge0))) with htdef
  have h0 : 0 ≤ t := le_max_left _ _
  have h1 : t ≤ 1 := max_le zero_le_one (min_le_left _ _)
  constructor
  · nlinarith
  · nlinarith [sq_nonneg (1 - t), sq_nonneg t]

/-- Helper: `Math.sign` lands in `[-1, 1]`. -/
theorem abs_real_sign_le_one (x : ℝ) : |Real.sign x| ≤ 1 := by
  rcases lt_trichotomy x 0 with h | h | h
  · rw [Real.sign_of_neg h]; norm_num
  · rw [h, Real.sign_zero]; norm_num
  · rw [Real.sign_of_pos h]; norm_num

/-- Helper: a real power of a base in `[0, 1]` with nonnegative exponent
stays in `[0, 1]`. -/
theorem rpow_mem_unit {b e : ℝ} (hb0 : 0 ≤ b) (hb1 : b ≤ 1) (he : 0 ≤ e) :
    0 ≤ b ^ e ∧ b ^ e ≤ 1 :=
  ⟨Real.rpow_nonneg hb0 e, Real.rpow_le_one hb0 hb1 he⟩

/-- Helper: `|sin| ≤ 1` as an absolute-value bound. -/
theorem abs_sin_le_one' (x : ℝ) : |Real.sin x| ≤ 1 :=
  abs_le.mpr ⟨Real.neg_one_le_sin x, Real.sin_le_one x⟩

/-- Helper: `|cos| ≤ 1` as an absolute-value bound. -/
theorem abs_cos_le_one' (x : ℝ) : |Real.cos x| ≤ 1 :=
  abs_le.mpr ⟨Real.neg_one_le_cos x, Real.cos_le_one x⟩

/-- Every classic-generator vertex coordinate is bounded by `2` in absolute
value, for a config in the documented ranges and `|v| ≤ 1`. -/
theorem classicPoint_bound (c : ShapeConfig) (hc : c.Valid) (u v : ℝ)
    (hv : |v| ≤ 1) :
    |(classicPoint c u v).1| ≤ 2 ∧ |(classicPoint c u v).2.1| ≤ 2 ∧
      |(classicPoint c u v).2.2| ≤ 2 := by
  obtain ⟨hsx0, hsx1, hsy0, hsy1, hsz0, hsz1, _, _, _, _, _, _, _, _, hgd0, hgd1⟩ := hc
  have hm := smoothstep_mem c.grooveWidth 0 |u|
  have hmabs : |smoothstep c.grooveWidth 0 (|u|)| ≤ 1 := by
    rw [abs_of_nonneg hm.1]; exact hm.2
  have hsxabs : |c.beanScaleX| ≤ 1 := by rw [abs_of_nonneg hsx0]; exact hsx1
  have hsyabs : |c.beanScaleY| ≤ 1 := by rw [abs_of_nonneg hsy0]; exact hsy1
  have hszabs : |c.beanScaleZ| ≤ 1 := by rw [abs_of_nonneg hsz0]; exact hsz1
  have hgdabs : |c.grooveDepth| ≤ 1/4 := by rw [abs_of_nonneg hgd0]; exact hgd1
  have hv2 : v * v ≤ 1 := by
    rw [← abs_mul_abs_self v]
    exact mul_le_one₀ hv (abs_nonneg v) hv
  have hv2' : 0 ≤ v * v := mul_self_nonneg v
  have hvabs : 0 ≤ |v| := abs_nonneg v
  have htaper : |1 - (|v|) * 0.08| ≤ 1 := by
    rw [abs_le]; constructor <;> linarith
  have hgroove : |1 - smoothstep c.grooveWidth 0 (|u|) * 0.1| ≤ 1 := by
    rw [abs_le]; constructor <;> linarith [hm.1, hm.2]
  have hlf : |1 - v * v * 0.4| ≤ 1 := by
    rw [abs_le]; constructor <;> linarith
  have hfz : |1 + 0.03 * Real.sin (v * Real.pi * 0.5)| ≤ 103/100 := by
    have hs := abs_sin_le_one' (v * Real.pi * 0.5)
    rw [abs_le] at hs ⊢
    constructor <;> linarith [hs.1, hs.2]
  have hx0 : |Real.sin (Real.arccos v) * Real.sin (u * Real.pi) * c.beanScaleX| ≤ 1 := by
    calc |Real.sin (Real.arccos v) * Real.sin (u * Real.pi) * c.beanScaleX|
        ≤ 1 * 1 * 1 :=
          abs_mul_le (abs_mul_le (abs_sin_le_one' _) (abs_sin_le_one' _)) hsxabs
      _ = 1 := by norm_num
  have hz0 : |Real.sin (Real.arccos v) * Real.cos (u * Real.pi) * c.beanScaleZ| ≤ 1 := by
    calc |Real.sin (Real.arccos v) * Real.cos (u * Real.pi) * c.beanScaleZ|
        ≤ 1 * 1 * 1 :=
          abs_mul_le (abs_mul_le (abs_sin_le_one' _) (abs_cos_le_one' _)) hszabs
      _ = 1 := by norm_num
  refine ⟨?_, ?_, ?_⟩ <;> simp only [classicPoint]
  · split_ifs with hz
    · calc |Real.sin (Real.arccos v) * Real.sin (u * Real.pi) * c.beanScaleX *
          (1 - smoothstep c.grooveWidth 0 (|u|) * 0.1) * (1 - (|v|) * 0.08)|
          ≤ 1 * 1 * 1 := abs_mul_le (abs_mul_le hx0 hgroove) htaper
        _ ≤ 2 := by norm_num
    · calc |Real.sin (Real.arccos v) * Real.sin (u * Real.pi) * c.beanScaleX *
          (1 - (|v|) * 0.08)|
          ≤ 1 * 1 := abs_mul_le hx0 htaper
        _ ≤ 2 := by norm_num
  · calc |Real.cos (Real.arccos v) * c.beanScaleY|
        ≤ 1 * 1 := abs_mul_le (abs_cos_le_one' _) hsyabs
      _ ≤ 2 := by norm_num
  · split_ifs with hz
    · have hsub : |Real.sin (Real.arccos v) * Real.cos (u * Real.pi) * c.beanScaleZ -
          c.grooveDepth * smoothstep c.grooveWidth 0 (|u|) * (1 - v * v * 0.4)| ≤ 5/4 := by
        refine le_trans (abs_sub_le_sum _ _) ?_
        have hg : |c.grooveDepth * smoothstep c.grooveWidth 0 (|u|) *
            (1 - v * v * 0.4)| ≤ 1/4 := by
          calc |c.grooveDepth * smoothstep c.grooveWidth 0 (|u|) * (1 - v * v * 0.4)|
              ≤ 1/4 * 1 * 1 := abs_mul_le (abs_mul_le hgdabs hmabs) hlf
            _ = 1/4 := by norm_num
        linarith
      calc |(Real.sin (Real.arccos v) * Real.cos (u * Real.pi) * c.beanScaleZ -
            c.grooveDepth * smoothstep c.grooveWidth 0 (|u|) * (1 - v * v * 0.4)) *
            (1 + 0.03 * Real.sin (v * Real.pi * 0.5)) * (1 - (|v|) * 0.08)|
          ≤ 5/4 * (103/100) * 1 := abs_mul_le (abs_mul_le hsub hfz) htaper
        _ ≤ 2 := by norm_num
    · calc |Real.sin (Real.arccos v) * Real.cos (u * Real.pi) * c.beanScaleZ *
          (1 + 0.03 * Real.sin (v * Real.pi * 0.5)) * (1 - (|v|) * 0.08)|
          ≤ 1 * (103/100) * 1 := abs_mul_le (abs_mul_le hz0 hfz) htaper
        _ ≤ 2 := by norm_num

/-- Every superellipse-generator vertex coordinate is bounded by `2` in
absolute value, for a config in the documented ranges and `|v| ≤ 1`. -/
theorem superellipsePoint_bound (c : ShapeConfig) (hc : c.Valid) (u v : ℝ)
    (hv : |v| ≤ 1) :
    |(superellipsePoint c u v).1| ≤ 2 ∧ |(superellipsePoint c u v).2.1| ≤ 2 ∧
      |(superellipsePoint c u v).2.2| ≤ 2 := by
  obtain ⟨hsx0, hsx1, hsy0, hsy1, hsz0, hsz1, hka0, hka1, hbb0, hbb1,
    hep0, hep1, hpt0, hpt1, hgd0, hgd1⟩ := hc
  have hv2 : v * v ≤ 1 := by
    rw [← abs_mul_abs_self v]
    exact mul_le_one₀ hv (abs_nonneg v) hv
  have hv2' : 0 ≤ v * v := mul_self_nonneg v
  have hsxabs : |c.beanScaleX| ≤ 1 := by rw [abs_of_nonneg hsx0]; exact hsx1
  have hsyabs : |c.beanScaleY| ≤ 1 := by rw [abs_of_nonneg hsy0]; exact hsy1
  have hszabs : |c.beanScaleZ| ≤ 1 := by rw [abs_of_nonneg hsz0]; exact hsz1
  have hgdabs : |c.grooveDepth| ≤ 1/4 := by rw [abs_of_nonneg hgd0]; exact hgd1
  have hkaabs : |c.kidneyAmount| ≤ 1/2 := by rw [abs_of_nonneg hka0]; exact hka1
  simp only [superellipsePoint]
  set m := smoothstep c.grooveWidth 0 (|u|) with hm_def
  set cX := Real.sign (Real.sin (u * Real.pi)) *
    (|Real.sin (u * Real.pi)|) ^ (2 / 2.5 : ℝ) with hcX_def
  set cZ := Real.sign (Real.cos (u * Real.pi)) *
    (|Real.cos (u * Real.pi)|) ^ (2 / 2.5 : ℝ) with hcZ_def
  set B := (1 - (|v|) ^ (2 + c.endPointiness)) ^ (0.5 + c.endPointiness * 0.5)
    with hB_def
  set K := c.kidneyAmount * Real.sin ((v - c.kidneyOffset) * Real.pi * 0.9)
    with hK_def
  set Z := (if cZ < 0 then (1 : ℝ) else 0) with hZ_def
  set P := 1 - c.endPinch * (|v|) ^ (3 : ℝ) with hP_def
  set BL := 1 + c.backBulge * Z * (1 - v * v * 0.5) with hBL_def
  have hm01 : 0 ≤ m ∧ m ≤ 1 := by rw [hm_def]; exact smoothstep_mem _ _ _
  have hmabs : |m| ≤ 1 := by rw [abs_of_nonneg hm01.1]; exact hm01.2
  have hcX1 : |cX| ≤ 1 := by
    rw [hcX_def]
    refine le_trans (abs_mul_le (abs_real_sign_le_one _) ?_)
      (by norm_num : (1 : ℝ) * 1 ≤ 1)
    rw [abs_of_nonneg (Real.rpow_nonneg (abs_nonneg _) _)]
    exact Real.rpow_le_one (abs_nonneg _) (abs_sin_le_one' _) (by norm_num)
  have hcZ1 : |cZ| ≤ 1 := by
    rw [hcZ_def]
    refine le_trans (abs_mul_le (abs_real_sign_le_one _) ?_)
      (by norm_num : (1 : ℝ) * 1 ≤ 1)
    rw [abs_of_nonneg (Real.rpow_nonneg (abs_nonneg _) _)]
    exact Real.rpow_le_one (abs_nonneg _) (abs_cos_le_one' _) (by norm_num)
  have hB01 : 0 ≤ B ∧ B ≤ 1 := by
    rw [hB_def]
    have h1 := rpow_mem_unit (abs_nonneg v) hv
      (show (0 : ℝ) ≤ 2 + c.endPointiness by linarith)
    exact rpow_mem_unit (by linarith [h1.2]) (by linarith [h1.1]) (by linarith)
  have hBabs : |B| ≤ 1 := by rw [abs_of_nonneg hB01.1]; exact hB01.2
  have hKabs : |K| ≤ 1/2 := by
    rw [hK_def]
    refine le_trans (abs_mul_le hkaabs (abs_sin_le_one' _)) ?_
    norm_num
  have hZ01 : 0 ≤ Z ∧ Z ≤ 1 := by rw [hZ_def]; split_ifs <;> norm_num
  have hPabs : |P| ≤ 1 := by
    rw [hP_def]
    have h3 := rpow_mem_unit (abs_nonneg v) hv (by norm_num : (0 : ℝ) ≤ 3)
    have h1 : 0 ≤ c.endPinch * (|v|) ^ (3 : ℝ) := mul_nonneg hep0 h3.1
    have h2 : c.endPinch * (|v|) ^ (3 : ℝ) ≤ 1 := mul_le_one₀ hep1 h3.1 h3.2
    rw [abs_le]; constructor <;> linarith
  have hlf20 : 0 ≤ 1 - v * v * 0.5 := by linarith
  have hlf21 : 1 - v * v * 0.5 ≤ 1 := by linarith
  have hlf2abs : |1 - v * v * 0.5| ≤ 1 := by rw [abs_le]; constructor <;> linarith
  have hBLabs : |BL| ≤ 3/2 := by
    rw [hBL_def]
    have hw0 : 0 ≤ c.backBulge * Z * (1 - v * v * 0.5) :=
      mul_nonneg (mul_nonneg hbb0 hZ01.1) hlf20
    have hw1 : c.backBulge * Z * (1 - v * v * 0.5) ≤ 1/2 := by
      calc c.backBulge * Z * (1 - v * v * 0.5) ≤ 1/2 * 1 * 1 :=
            mul_le_mul (mul_le_mul hbb1 hZ01.2 hZ01.1 (by norm_num)) hlf21 hlf20
              (by norm_num)
        _ = 1/2 := by norm_num
    rw [abs_le]; constructor <;> linarith
  have hX0 : |cX * B * c.beanScaleX * P + K * B * c.beanScaleX| ≤ 3/2 := by
    refine le_trans (abs_add _ _) ?_
    have h1 : |cX * B * c.beanScaleX * P| ≤ 1 := by
      refine le_trans (abs_mul_le (abs_mul_le (abs_mul_le hcX1 hBabs) hsxabs) hPabs) ?_
      norm_num
    have h2 : |K * B * c.beanScaleX| ≤ 1/2 := by
      refine le_trans (abs_mul_le (abs_mul_le hKabs hBabs) hsxabs) ?_
      norm_num
    linarith
  have hZ0 : |cZ * B * c.beanScaleZ * BL| ≤ 3/2 := by
    refine le_trans (abs_mul_le (abs_mul_le (abs_mul_le hcZ1 hBabs) hszabs) hBLabs) ?_
    norm_num
  have hgroove8 : |1 - m * 0.08| ≤ 1 := by
    rw [abs_le]; constructor <;> linarith [hm01.1, hm01.2]
  have hasym : |0.02 * Real.sin (v * Real.pi * 2.1) * B| ≤ 1/50 := by
    refine le_trans (abs_mul_le (abs_mul_le
      (by rw [show |(0.02 : ℝ)| = 0.02 from abs_of_pos (by norm_num)] :
        |(0.02 : ℝ)| ≤ 0.02) (abs_sin_le_one' _)) hBabs) ?_
    norm_num
  have hf13 : |1 + 0.02 * Real.sin (v * Real.pi * 1.3)| ≤ 51/50 := by
    have hs := abs_sin_le_one' (v * Real.pi * 1.3)
    rw [abs_le] at hs ⊢
    constructor <;> linarith [hs.1, hs.2]
  split_ifs with hzc
  · refine ⟨?_, ?_, ?_⟩
    · refine le_trans (abs_add _ _) ?_
      have h1 : |(cX * B * c.beanScaleX * P + K * B * c.beanScaleX) *
          (1 - m * 0.08)| ≤ 3/2 :=
        le_trans (abs_mul_le hX0 hgroove8) (by norm_num)
      linarith [hasym]
    · refine le_trans (abs_mul_le hv hsyabs) ?_
      norm_num
    · have hgr : |c.grooveDepth * m * (1 - v * v * 0.5) * B| ≤ 1/4 := by
        refine le_trans (abs_mul_le (abs_mul_le (abs_mul_le hgdabs hmabs) hlf2abs)
          hBabs) ?_
        norm_num
      have hsub : |cZ * B * c.beanScaleZ * BL -
          c.grooveDepth * m * (1 - v * v * 0.5) * B| ≤ 7/4 :=
        le_trans (abs_sub_le_sum _ _) (by linarith)
      refine le_trans (abs_mul_le hsub hf13) ?_
      norm_num
  · refine ⟨?_, ?_, ?_⟩
    · refine le_trans (abs_add _ _) ?_
      linarith [hasym]
    · refine le_trans (abs_mul_le hv hsyabs) ?_
      norm_num
    · refine le_trans (abs_mul_le hZ0 hf13) ?_
      norm_num

/-- Helper: a grid coordinate `i/n*2 - 1` with `i ≤ n` lies in `[-1, 1]`. -/
theorem grid_coord_abs_le (i n : ℕ) (hi : i < n + 1) (hn : 0 < n) :
    |(i : ℝ) / n * 2 - 1| ≤ 1 := by
  have hn' : (0 : ℝ) < n := by exact_mod_cast hn
  have h0 : (0 : ℝ) ≤ (i : ℝ) / n := by positivity
  have h1 : (i : ℝ) / n ≤ 1 := by
    rw [div_le_one hn']
    exact_mod_cast Nat.lt_succ_iff.mp hi
  rw [abs_le]; constructor <;> linarith

/-- Helper: all classic vertices are coordinate-bounded by `2`. -/
theorem classicVertices_bound (c : ShapeConfig) (hc : c.Valid)
    (sU sV : ℕ) (hV : 0 < sV) :
    ∀ p ∈ classicVertices c sU sV,
      |p.1| ≤ 2 ∧ |p.2.1| ≤ 2 ∧ |p.2.2| ≤ 2 := by
  intro p hp
  unfold classicVertices at hp
  obtain ⟨iv, hiv, hp⟩ := List.mem_flatMap.mp hp
  obtain ⟨iu, hiu, rfl⟩ := List.mem_map.mp hp
  rw [List.mem_range] at hiv hiu
  exact classicPoint_bound c hc _ _ (grid_coord_abs_le iv sV hiv hV)

/-- Helper: all superellipse vertices are coordinate-bounded by `2`. -/
theorem superellipseVertices_bound (c : ShapeConfig) (hc : c.Valid)
    (sU sV : ℕ) (hV : 0 < sV) :
    ∀ p ∈ superellipseVertices c sU sV,
      |p.1| ≤ 2 ∧ |p.2.1| ≤ 2 ∧ |p.2.2| ≤ 2 := by
  intro p hp
  unfold superellipseVertices at hp
  obtain ⟨iv, hiv, hp⟩ := List.mem_flatMap.mp hp
  obtain ⟨iu, hiu, rfl⟩ := List.mem_map.mp hp
  rw [List.mem_range] at hiv hiu
  exact superellipsePoint_bound c hc _ _ (grid_coord_abs_le iv sV hiv hV)

/-- C3: for every config in the documented ranges and any tessellation
`segmentsU, segmentsV ≥ 3`, both generators produce exactly
`(segmentsU+1)·(segmentsV+1)` vertices and exactly
`segmentsU·segmentsV·2` triangles, every index of every triangle is within
vertex-array bounds, and every vertex coordinate is finite — bounded by `2`
in absolute value. -/
theorem geometry_mesh_counts (c : ShapeConfig) (segmentsU segmentsV : ℕ)
    (hc : c.Valid) (_hU : 3 ≤ segmentsU) (hV : 3 ≤ segmentsV) :
    (classicVertices c segmentsU segmentsV).length =
      (segmentsU + 1) * (segmentsV + 1) ∧
    (superellipseVertices c segmentsU segmentsV).length =
      (segmentsU + 1) * (segmentsV + 1) ∧
    (gridIndices segmentsU segmentsV).length = segmentsU * segmentsV * 2 ∧
    (∀ t ∈ gridIndices segmentsU segmentsV,
      t.1 < (segmentsU + 1) * (segmentsV + 1) ∧
      t.2.1 < (segmentsU + 1) * (segmentsV + 1) ∧
      t.2.2 < (segmentsU + 1) * (segmentsV + 1)) ∧
    (∀ p ∈ classicVertices c segmentsU segmentsV,
      |p.1| ≤ 2 ∧ |p.2.1| ≤ 2 ∧ |p.2.2| ≤ 2) ∧
    (∀ p ∈ superellipseVertices c segmentsU segmentsV,
      |p.1| ≤ 2 ∧ |p.2.1| ≤ 2 ∧ |p.2.2| ≤ 2) :=
  ⟨length_gridVertices segmentsU segmentsV,
   length_gridVertices segmentsU segmentsV,
   length_gridIndices segmentsU segmentsV,
   gridIndices_bounds segmentsU segmentsV,
   classicVertices_bound c hc segmentsU segmentsV (by omega),
   superellipseVertices_bound c hc segmentsU segmentsV (by omega)⟩

/-- The source's default shape parameters (`BEAN_CONFIG` superellipse
defaults with the superellipse groove params). -/
def demoShape : ShapeConfig :=
  { beanScaleX := 0.45, beanScaleY := 0.66, beanScaleZ := 0.35,
    kidneyAmount := 0.02, kidneyOffset := 0.3, backBulge := 0.25,
    endPinch := 0, endPointiness := 0.14,
    grooveDepth := 0.22, grooveWidth := 0.28 }

/-- C3 witness: the counts at the default config with the minimal
tessellation `3 × 3`. -/
theorem geometry_mesh_counts_witness :
    demoShape.Valid ∧ (3 ≤ 3) ∧
    (classicVertices demoShape 3 3).length = (3 + 1) * (3 + 1) ∧
    (gridIndices 3 3).length = 3 * 3 * 2 :=
  ⟨by norm_num [ShapeConfig.Valid, demoShape], by norm_num,
    (geometry_mesh_counts demoShape 3 3
      (by norm_num [ShapeConfig.Valid, demoShape]) (by norm_num)
      (by norm_num)).1,
    (geometry_mesh_counts demoShape 3 3
      (by norm_num [ShapeConfig.Valid, demoShape]) (by norm_num)
      (by norm_num)).2.2.1⟩

end Brewlingo
